import Mathlib

/-!
Shallow embedding of `src/utils/imageProcessor.ts` from the picresizeinkb
repository.

The browser's canvas/encoder subsystem is abstracted as a function from
(canvas width, canvas height, quality) to an optional byte size: the canvas
always holds the single source image drawn to fill the canvas, so the encoded
bytes are determined by the canvas dimensions, the quality and (for the
cropper) the mime type.  `none` models `canvas.toBlob` invoking its callback
with `null`.  In `compressImageToTarget` the TypeScript helper `getBlob`
resolves with `blob!`; in the phase-1 and phase-2 loops the code then reads
`blob.size`, so a `null` blob crashes that access and rejects the promise —
modelled as the `encodingFailed` error.  The exhaustion fallback, by
contrast, never reads `.size`: it returns `{ blob: finalBlob, width,
height }` as is, so a `null` fallback blob is returned successfully — the
result type therefore carries an optional blob.  Qualities and scales are
modelled as exact rationals.

The record fields `calls` (every encode attempt, in order, with its result)
and `recorded` (the qualities at which `bestBlob` was overwritten, in order)
are ghost instrumentation; the `res` field is the value the TypeScript
function produces.
-/

namespace PicResize

instance {ε α : Type} [DecidableEq ε] [DecidableEq α] :
    DecidableEq (Except ε α) := fun a b =>
  match a, b with
  | .ok x, .ok y =>
    if h : x = y then .isTrue (by rw [h]) else
      .isFalse (by intro hc; exact h (Except.ok.inj hc))
  | .error x, .error y =>
    if h : x = y then .isTrue (by rw [h]) else
      .isFalse (by intro hc; exact h (Except.error.inj hc))
  | .ok _, .error _ => .isFalse (by intro hc; exact Except.noConfusion hc)
  | .error _, .ok _ => .isFalse (by intro hc; exact Except.noConfusion hc)

/-- An encoded output: the pixel dimensions it was encoded at and its byte
size.  In the TypeScript source this is the `Blob` (whose pixel dimensions
are those of the canvas it was serialized from) together with
`width`/`height` as carried by `CompressionResult`. -/
structure Artifact where
  width : ℕ
  height : ℕ
  sizeBytes : ℕ
deriving DecidableEq, Repr

/-- The abstracted encoder used by `compressImageToTarget`:
`canvas.toBlob(cb, 'image/jpeg', q)` on a canvas of the given dimensions
holding the source image.  `none` models a `null` blob. -/
abbrev Enc := ℕ → ℕ → ℚ → Option ℕ

/-- A total encoder built from a size function (every encode succeeds). -/
def encOf (sz : ℕ → ℕ → ℚ → ℕ) : Enc := fun w h q => some (sz w h q)

/-- Errors `compressImageToTarget` can raise: `noContext` models
`throw new Error('Could not get canvas context')`; `encodingFailed` models
the failure when an encode call yields no output. -/
inductive CompressError
  | noContext
  | encodingFailed
deriving DecidableEq, Repr

/-- Ghost record of one encode attempt: canvas dimensions, quality, the
encoder's answer, and whether this was the exhaustion-fallback encode
(the `getBlob(0.1)` after the phase-2 loop, whose result's size is never
read) rather than a loop encode. -/
structure EncCall where
  w : ℕ
  h : ℕ
  q : ℚ
  res : Option ℕ
  fallback : Bool
deriving DecidableEq, Repr

/-- The value `compressImageToTarget` resolves with: the TypeScript object
`{ blob, width, height }`.  `blob` is the byte size of the returned `Blob`;
`none` models a `null` blob, which only the exhaustion fallback can
produce (the loops read `blob.size` and crash on `null` first). -/
structure CompressionResult where
  blob : Option ℕ
  width : ℕ
  height : ℕ
deriving DecidableEq, Repr

/-- The decoded source image: `originalImage.width`/`height` (its natural
pixel dimensions, since the element is not laid out). -/
structure Dims where
  w : ℕ
  h : ℕ
deriving DecidableEq, Repr

/-- Output of the phase-1 loop: the result (an error, or the optional
`bestBlob`), plus ghost instrumentation. -/
structure P1Out where
  res : Except CompressError (Option Artifact)
  calls : List EncCall
  recorded : List ℚ
deriving DecidableEq, Repr

/-- Phase 1 of `compressImageToTarget`: the quality bisection loop
`while (minQ <= maxQ && iterations < 10)` at full resolution, with
`midQ = (minQ + maxQ) / 2`, recording a fitting blob as `bestBlob` and
stepping `minQ = midQ + 0.05`, else stepping `maxQ = midQ - 0.05`.
The fuel argument is the remaining iteration budget (10 at the call site). -/
def phase1Loop (enc : Enc) (W H target : ℕ) (minQ maxQ : ℚ)
    (best : Option Artifact) : ℕ → P1Out
  | 0 => ⟨.ok best, [], []⟩
  | fuel + 1 =>
    if minQ ≤ maxQ then
      let midQ := (minQ + maxQ) / 2
      match enc W H midQ with
      | none => ⟨.error .encodingFailed, [⟨W, H, midQ, none, false⟩], []⟩
      | some size =>
        if size ≤ target then
          let o := phase1Loop enc W H target (midQ + 1/20) maxQ
            (some ⟨W, H, size⟩) fuel
          ⟨o.res, ⟨W, H, midQ, some size, false⟩ :: o.calls,
            midQ :: o.recorded⟩
        else
          let o := phase1Loop enc W H target minQ (midQ - 1/20) best fuel
          ⟨o.res, ⟨W, H, midQ, some size, false⟩ :: o.calls, o.recorded⟩
    else ⟨.ok best, [], []⟩

/-- Output of the phase-2 loop. -/
structure P2Out where
  res : Except CompressError CompressionResult
  calls : List EncCall
deriving DecidableEq, Repr

/-- The exhaustion fallback: `const finalBlob = await getBlob(0.1)` at the
current (last attempted) canvas dimensions, then
`return { blob: finalBlob, width, height }` — the blob's size is never
read, so even a `null` blob is returned successfully, unconditionally. -/
def fallbackOut (enc : Enc) (w h : ℕ) : P2Out :=
  ⟨.ok ⟨enc w h (1/10), w, h⟩, [⟨w, h, 1/10, enc w h (1/10), true⟩]⟩

/-- Phase 2 of `compressImageToTarget`: the dimension-scaling loop
`while (iterations < 15)`, encoding at quality `0.5` at
`floor(original * scale)`, returning on first fit, stepping
`scale -= 0.1` and breaking when `scale < 0.1`; after the loop the
exhaustion fallback encodes at quality `0.1` at the last attempted
dimensions.  `w`/`h` carry the current values of the mutable
`width`/`height` variables (used by the fallback when fuel runs out). -/
def phase2Loop (enc : Enc) (W H target : ℕ) (scale : ℚ) (w h : ℕ) :
    ℕ → P2Out
  | 0 => fallbackOut enc w h
  | fuel + 1 =>
    let w2 := (⌊(W : ℚ) * scale⌋).toNat
    let h2 := (⌊(H : ℚ) * scale⌋).toNat
    match enc w2 h2 (1/2) with
    | none => ⟨.error .encodingFailed, [⟨w2, h2, 1/2, none, false⟩]⟩
    | some size =>
      if size ≤ target then
        ⟨.ok ⟨some size, w2, h2⟩, [⟨w2, h2, 1/2, some size, false⟩]⟩
      else
        let scale2 := scale - 1/10
        if scale2 < 1/10 then
          let f := fallbackOut enc w2 h2
          ⟨f.res, ⟨w2, h2, 1/2, some size, false⟩ :: f.calls⟩
        else
          let o := phase2Loop enc W H target scale2 w2 h2 fuel
          ⟨o.res, ⟨w2, h2, 1/2, some size, false⟩ :: o.calls⟩

/-- Output of a full `compressImageToTarget` run, with ghost
instrumentation. -/
structure RunOut where
  res : Except CompressError CompressionResult
  calls : List EncCall
  recorded : List ℚ
deriving DecidableEq, Repr

/-- `compressImageToTarget(file, targetSizeKB)` after decoding:
`targetSizeBytes = targetSizeKB * 1024`; throw if no 2d context; phase 1
(quality bisection, `minQ = 0.01`, `maxQ = 1.0`, 10 iterations); if
`bestBlob` was found return it at the original dimensions; otherwise
phase 2 (dimension scaling from `scale = 0.9`, 15 iterations) ending in
the exhaustion fallback. -/
def compressRun (enc : Enc) (ctxOk : Bool) (img : Dims)
    (targetSizeKB : ℕ) : RunOut :=
  let target := targetSizeKB * 1024
  if ctxOk then
    let p1 := phase1Loop enc img.w img.h target (1/100) 1 none 10
    match p1.res with
    | .error e => ⟨.error e, p1.calls, p1.recorded⟩
    | .ok (some art) =>
      ⟨.ok ⟨some art.sizeBytes, img.w, img.h⟩, p1.calls, p1.recorded⟩
    | .ok none =>
      let p2 := phase2Loop enc img.w img.h target (9/10) img.w img.h 15
      ⟨p2.res, p1.calls ++ p2.calls, p1.recorded⟩
  else ⟨.error .noContext, [], []⟩

/-- The value `compressImageToTarget` returns (or the error it rejects
with). -/
def compressImageToTarget (enc : Enc) (ctxOk : Bool) (img : Dims)
    (targetSizeKB : ℕ) : Except CompressError CompressionResult :=
  (compressRun enc ctxOk img targetSizeKB).res

/-! ### The cropper, `getCroppedImg` -/

/-- Errors `getCroppedImg` can raise: `new Error('No 2d context')` and
`new Error('Canvas is empty')`. -/
inductive CropError
  | noContext
  | canvasEmpty
deriving DecidableEq, Repr

/-- The `HTMLImageElement` fields `getCroppedImg` reads: natural pixel
dimensions and displayed (layout) dimensions. -/
structure ImgEl where
  naturalWidth : ℕ
  naturalHeight : ℕ
  width : ℕ
  height : ℕ
deriving DecidableEq, Repr

/-- The `PixelCrop` interface: a region in display-coordinate units. -/
structure PixelCrop where
  x : ℚ
  y : ℚ
  width : ℚ
  height : ℚ
deriving DecidableEq, Repr

/-- The cropper's encoder abstraction: `canvas.toBlob(cb, type, quality)` on
a canvas of the given dimensions holding the drawn crop. -/
abbrev CropEnc := ℕ → ℕ → String → ℚ → Option ℕ

/-- Truncation toward zero, the integer part used by the WebIDL
double-to-`unsigned long` conversion that the `canvas.width`/`canvas.height`
setters apply. -/
def truncTowardZero (q : ℚ) : ℤ := if 0 ≤ q then ⌊q⌋ else -⌊-q⌋

/-- WebIDL conversion of a JS number to `unsigned long`: integer part,
modulo 2^32. -/
def toUint32 (q : ℚ) : ℕ := ((truncTowardZero q) % (2 ^ 32 : ℤ)).toNat

/-- `getCroppedImg(image, crop, type)`: computes
`scaleX = naturalWidth / width`, `scaleY = naturalHeight / height`, sets the
canvas to `crop.width * scaleX` by `crop.height * scaleY` (coerced by the
`unsigned long` setters), throws if no 2d context, draws the scaled crop
rectangle, and serializes via `canvas.toBlob(cb, type, 1.0)`, rejecting with
`Canvas is empty` on a `null` blob.  No validation of the crop region is
performed. -/
def getCroppedImg (ctxOk : Bool) (cropEnc : CropEnc) (image : ImgEl)
    (crop : PixelCrop) (type : String) : Except CropError Artifact :=
  let scaleX : ℚ := (image.naturalWidth : ℚ) / (image.width : ℚ)
  let scaleY : ℚ := (image.naturalHeight : ℚ) / (image.height : ℚ)
  let cw := toUint32 (crop.width * scaleX)
  let ch := toUint32 (crop.height * scaleY)
  if ctxOk then
    match cropEnc cw ch type 1 with
    | none => .error .canvasEmpty
    | some size => .ok ⟨cw, ch, size⟩
  else .error .noContext

/-! ### A specification-side rendering of the phase-1 search (for the
refinement claim about phase 1's structure) -/

/-- Modelled from the spec: phase 1 as the spec words it — a quality
interval `[minQ, maxQ]` starting at `[0.01, 1.0]`, up to 10 iterations
while `minQ ≤ maxQ`, encoding the full-resolution image at
`midQ = (minQ + maxQ) / 2`; on fit, record the artifact as best-so-far
(overwriting) and set `minQ = midQ + 0.05`, else set `maxQ = midQ - 0.05`;
the recorded candidate, if any, is the phase's answer. -/
def phase1Spec (enc : Enc) (W H target : ℕ) :
    ℕ → ℚ → ℚ → Option Artifact → Except CompressError (Option Artifact)
  | 0, _, _, best => .ok best
  | fuel + 1, minQ, maxQ, best =>
    if minQ ≤ maxQ then
      let midQ := (minQ + maxQ) / 2
      match enc W H midQ with
      | none => .error .encodingFailed
      | some size =>
        if size ≤ target then
          phase1Spec enc W H target fuel (midQ + 1/20) maxQ
            (some ⟨W, H, size⟩)
        else
          phase1Spec enc W H target fuel minQ (midQ - 1/20) best
    else .ok best

/-! ### Helper lemmas about the phase loops -/

/-- Phase 1 makes at most `fuel` encode attempts. -/
lemma phase1_calls_length (enc : Enc) (W H target : ℕ) :
    ∀ (fuel : ℕ) (minQ maxQ : ℚ) (best : Option Artifact),
      (phase1Loop enc W H target minQ maxQ best fuel).calls.length ≤ fuel := by
  intro fuel
  induction fuel with
  | zero => intro minQ maxQ best; simp [phase1Loop]
  | succ n ih =>
    intro minQ maxQ best
    simp only [phase1Loop]
    split
    · split
      · simp
      · split
        · simpa using ih _ _ _
        · simpa using ih _ _ _
    · simp

/-- Phase 2 makes at most `fuel + 1` encode attempts (loop plus fallback). -/
lemma phase2_calls_length (enc : Enc) (W H target : ℕ) :
    ∀ (fuel : ℕ) (scale : ℚ) (w h : ℕ),
      (phase2Loop enc W H target scale w h fuel).calls.length ≤ fuel + 1 := by
  intro fuel
  induction fuel with
  | zero =>
    intro scale w h
    simp [phase2Loop, fallbackOut]
  | succ n ih =>
    intro scale w h
    simp only [phase2Loop]
    split
    · simp
    · split
      · simp
      · split
        · simp [fallbackOut]
        · simpa using Nat.succ_le_succ (ih _ _ _)

/-- Every phase-1 encode attempt uses a quality in `[minQ, maxQ]`-derived
bounds: with `1/100 ≤ minQ` and `maxQ ≤ 1` on entry, all attempted
qualities lie in `[0.01, 1.0]`. -/
lemma phase1_calls_quality (enc : Enc) (W H target : ℕ) :
    ∀ (fuel : ℕ) (minQ maxQ : ℚ) (best : Option Artifact),
      1/100 ≤ minQ → maxQ ≤ 1 →
      ∀ c ∈ (phase1Loop enc W H target minQ maxQ best fuel).calls,
        1/100 ≤ c.q ∧ c.q ≤ 1 := by
  intro fuel
  induction fuel with
  | zero => intro minQ maxQ best _ _ c hc; simp [phase1Loop] at hc
  | succ n ih =>
    intro minQ maxQ best hmin hmax c hc
    simp only [phase1Loop] at hc
    by_cases hle : minQ ≤ maxQ
    · rw [if_pos hle] at hc
      have hmidlb : minQ ≤ (minQ + maxQ) / 2 := by linarith
      have hmidub : (minQ + maxQ) / 2 ≤ maxQ := by linarith
      have hmid : 1/100 ≤ (minQ + maxQ) / 2 ∧ (minQ + maxQ) / 2 ≤ 1 :=
        ⟨le_trans hmin hmidlb, le_trans hmidub hmax⟩
      rcases henc : enc W H ((minQ + maxQ) / 2) with _ | size
      · rw [henc] at hc
        simp at hc
        rw [hc]
        exact hmid
      · rw [henc] at hc
        simp only [] at hc
        by_cases hfit : size ≤ target
        · rw [if_pos hfit] at hc
          simp only [List.mem_cons] at hc
          rcases hc with hc | hc
          · rw [hc]; exact hmid
          · exact ih _ _ _ (by linarith) hmax c hc
        · rw [if_neg hfit] at hc
          simp only [List.mem_cons] at hc
          rcases hc with hc | hc
          · rw [hc]; exact hmid
          · exact ih _ _ _ hmin (by linarith) c hc
    · rw [if_neg hle] at hc
      simp at hc

/-- The exhaustion fallback encodes at quality `0.1`. -/
lemma fallbackOut_calls_quality (enc : Enc) (w h : ℕ) :
    ∀ c ∈ (fallbackOut enc w h).calls, c.q = 1/10 := by
  intro c hc
  simp only [fallbackOut, List.mem_singleton] at hc
  rw [hc]

/-- Every phase-2 encode attempt uses quality `0.5` (loop) or `0.1`
(fallback). -/
lemma phase2_calls_quality (enc : Enc) (W H target : ℕ) :
    ∀ (fuel : ℕ) (scale : ℚ) (w h : ℕ),
      ∀ c ∈ (phase2Loop enc W H target scale w h fuel).calls,
        c.q = 1/2 ∨ c.q = 1/10 := by
  intro fuel
  induction fuel with
  | zero =>
    intro scale w h c hc
    exact Or.inr (fallbackOut_calls_quality enc w h c hc)
  | succ n ih =>
    intro scale w h c hc
    simp only [phase2Loop] at hc
    rcases henc : enc ((⌊(W : ℚ) * scale⌋).toNat) ((⌊(H : ℚ) * scale⌋).toNat)
        (1/2) with _ | size <;> rw [henc] at hc
    · simp at hc
      rw [hc]
      left
      norm_num
    · simp only [] at hc
      by_cases hfit : size ≤ target
      · rw [if_pos hfit] at hc
        simp at hc
        rw [hc]
        left
        norm_num
      · rw [if_neg hfit] at hc
        by_cases hsc : scale - 1/10 < 1/10
        · rw [if_pos hsc] at hc
          simp only [List.mem_cons] at hc
          rcases hc with hc | hc
          · rw [hc]; left; norm_num
          · exact Or.inr (fallbackOut_calls_quality enc _ _ c hc)
        · rw [if_neg hsc] at hc
          simp only [List.mem_cons] at hc
          rcases hc with hc | hc
          · rw [hc]; left; norm_num
          · exact ih _ _ _ c hc

/-- Every quality at which phase 1 records a best-so-far candidate is at
least `minQ`. -/
lemma phase1_recorded_lb (enc : Enc) (W H target : ℕ) :
    ∀ (fuel : ℕ) (minQ maxQ : ℚ) (best : Option Artifact),
      ∀ q ∈ (phase1Loop enc W H target minQ maxQ best fuel).recorded,
        minQ ≤ q := by
  intro fuel
  induction fuel with
  | zero => intro minQ maxQ best q hq; simp [phase1Loop] at hq
  | succ n ih =>
    intro minQ maxQ best q hq
    simp only [phase1Loop] at hq
    by_cases hle : minQ ≤ maxQ
    · rw [if_pos hle] at hq
      have hmidlb : minQ ≤ (minQ + maxQ) / 2 := by linarith
      rcases henc : enc W H ((minQ + maxQ) / 2) with _ | size <;>
        rw [henc] at hq
      · simp at hq
      · simp only [] at hq
        by_cases hfit : size ≤ target
        · rw [if_pos hfit] at hq
          simp only [List.mem_cons] at hq
          rcases hq with hq | hq
          · rw [hq]; exact hmidlb
          · have := ih _ _ _ q hq
            linarith
        · rw [if_neg hfit] at hq
          exact ih _ _ _ q hq
    · rw [if_neg hle] at hq
      simp at hq

/-- Phase 1 records best-so-far candidates at strictly increasing
qualities. -/
lemma phase1_recorded_pairwise (enc : Enc) (W H target : ℕ) :
    ∀ (fuel : ℕ) (minQ maxQ : ℚ) (best : Option Artifact),
      List.Pairwise (· < ·)
        (phase1Loop enc W H target minQ maxQ best fuel).recorded := by
  intro fuel
  induction fuel with
  | zero => intro minQ maxQ best; simp [phase1Loop]
  | succ n ih =>
    intro minQ maxQ best
    simp only [phase1Loop]
    split
    · rcases henc : enc W H ((minQ + maxQ) / 2) with _ | size
      · simp
      · simp only []
        split
        · refine List.pairwise_cons.mpr ⟨?_, ih _ _ _⟩
          intro q hq
          have := phase1_recorded_lb enc W H target n _ _ _ q hq
          linarith
        · exact ih _ _ _
    · simp

/-- Appending a nonempty list distributes over `dropLast`. -/
lemma dropLast_append_ne_nil {α : Type} (l1 : List α) :
    ∀ {l2 : List α}, l2 ≠ [] →
      (l1 ++ l2).dropLast = l1 ++ l2.dropLast := by
  intro l2 h
  cases l2 with
  | nil => exact absurd rfl h
  | cons b m => exact List.dropLast_append_cons

/-- Phase 1 errors exactly when some attempted encode yielded `none`; the
only error it raises is `encodingFailed`; and a failed encode is always the
last attempt (nothing runs after it). -/
lemma phase1_none_structure (enc : Enc) (W H target : ℕ) :
    ∀ (fuel : ℕ) (minQ maxQ : ℚ) (best : Option Artifact),
      ((∃ e, (phase1Loop enc W H target minQ maxQ best fuel).res = .error e)
          ↔ ∃ c ∈ (phase1Loop enc W H target minQ maxQ best fuel).calls,
              c.res = none) ∧
      (∀ e, (phase1Loop enc W H target minQ maxQ best fuel).res = .error e →
          e = .encodingFailed) ∧
      (∀ c ∈ (phase1Loop enc W H target minQ maxQ best fuel).calls.dropLast,
          c.res ≠ none) := by
  intro fuel
  induction fuel with
  | zero =>
    intro minQ maxQ best
    refine ⟨?_, ?_, ?_⟩ <;> simp [phase1Loop]
  | succ n ih =>
    intro minQ maxQ best
    simp only [phase1Loop]
    by_cases hle : minQ ≤ maxQ
    · rw [if_pos hle]
      rcases henc : enc W H ((minQ + maxQ) / 2) with _ | size
    -- encode yielded none: immediate error, single call
      · refine ⟨?_, ?_, ?_⟩
        · simp
        · intro e he
          exact (Except.error.inj he).symm
        · simp
      · simp only []
        by_cases hfit : size ≤ target
        · rw [if_pos hfit]
          obtain ⟨ih1, ih2, ih3⟩ := ih ((minQ + maxQ) / 2 + 1/20) maxQ
            (some ⟨W, H, size⟩)
          refine ⟨?_, ih2, ?_⟩
          · simp only [List.mem_cons]
            rw [ih1]
            constructor
            · rintro ⟨c, hc, hr⟩
              exact ⟨c, Or.inr hc, hr⟩
            · rintro ⟨c, hc | hc, hr⟩
              · rw [hc] at hr; simp at hr
              · exact ⟨c, hc, hr⟩
          · rcases hcalls : (phase1Loop enc W H target
                ((minQ + maxQ) / 2 + 1/20) maxQ (some ⟨W, H, size⟩) n).calls
              with _ | ⟨b, m⟩
            · simp
            · rw [List.dropLast_cons_of_ne_nil (by simp)]
              intro c hc
              simp only [List.mem_cons] at hc
              rcases hc with hc | hc
              · rw [hc]; simp
              · rw [hcalls] at ih3
                exact ih3 c hc
        · rw [if_neg hfit]
          obtain ⟨ih1, ih2, ih3⟩ := ih minQ ((minQ + maxQ) / 2 - 1/20) best
          refine ⟨?_, ih2, ?_⟩
          · simp only [List.mem_cons]
            rw [ih1]
            constructor
            · rintro ⟨c, hc, hr⟩
              exact ⟨c, Or.inr hc, hr⟩
            · rintro ⟨c, hc | hc, hr⟩
              · rw [hc] at hr; simp at hr
              · exact ⟨c, hc, hr⟩
          · rcases hcalls : (phase1Loop enc W H target minQ
                ((minQ + maxQ) / 2 - 1/20) best n).calls with _ | ⟨b, m⟩
            · simp
            · rw [List.dropLast_cons_of_ne_nil (by simp)]
              intro c hc
              simp only [List.mem_cons] at hc
              rcases hc with hc | hc
              · rw [hc]; simp
              · rw [hcalls] at ih3
                exact ih3 c hc
    · rw [if_neg hle]
      refine ⟨?_, ?_, ?_⟩ <;> simp

/-- The exhaustion fallback never errors: it returns the encoder's raw
answer (possibly a `null` blob) at the current dimensions, and makes
exactly one attempt, marked as the fallback. -/
lemma fallbackOut_structure (enc : Enc) (w h : ℕ) :
    (fallbackOut enc w h).res = .ok ⟨enc w h (1/10), w, h⟩ ∧
    (fallbackOut enc w h).calls = [⟨w, h, 1/10, enc w h (1/10), true⟩] :=
  ⟨rfl, rfl⟩

/-- Phase 2 errors exactly when some loop encode (not the fallback)
yielded `none`; the only error is `encodingFailed`; a failed encode is
always the last attempt; phase 2 always makes at least one attempt; and
whenever the fallback encode runs, its raw answer is returned as a
success at its dimensions — a `null` fallback blob is not an error. -/
lemma phase2_none_structure (enc : Enc) (W H target : ℕ) :
    ∀ (fuel : ℕ) (scale : ℚ) (w h : ℕ),
      ((∃ e, (phase2Loop enc W H target scale w h fuel).res = .error e)
          ↔ ∃ c ∈ (phase2Loop enc W H target scale w h fuel).calls,
              c.fallback = false ∧ c.res = none) ∧
      (∀ e, (phase2Loop enc W H target scale w h fuel).res = .error e →
          e = .encodingFailed) ∧
      (∀ c ∈ (phase2Loop enc W H target scale w h fuel).calls.dropLast,
          c.res ≠ none) ∧
      (phase2Loop enc W H target scale w h fuel).calls ≠ [] ∧
      (∀ c ∈ (phase2Loop enc W H target scale w h fuel).calls,
        c.fallback = true →
          (phase2Loop enc W H target scale w h fuel).res =
            .ok ⟨c.res, c.w, c.h⟩) := by
  intro fuel
  induction fuel with
  | zero =>
    intro scale w h
    simp only [phase2Loop]
    refine ⟨?_, ?_, by simp [fallbackOut], by simp [fallbackOut], ?_⟩
    · constructor
      · rintro ⟨e, he⟩
        exact absurd he (by simp [fallbackOut])
      · rintro ⟨c, hc, hfb, _⟩
        simp only [fallbackOut, List.mem_singleton] at hc
        rw [hc] at hfb
        simp at hfb
    · intro e he
      exact absurd he (by simp [fallbackOut])
    · intro c hc _
      simp only [fallbackOut, List.mem_singleton] at hc
      rw [hc]
      rfl
  | succ n ih =>
    intro scale w h
    simp only [phase2Loop]
    rcases henc : enc ((⌊(W : ℚ) * scale⌋).toNat) ((⌊(H : ℚ) * scale⌋).toNat)
        (1/2) with _ | size
    · refine ⟨?_, ?_, by simp, by simp, ?_⟩
      · constructor
        · intro _
          exact ⟨⟨(⌊(W : ℚ) * scale⌋).toNat, (⌊(H : ℚ) * scale⌋).toNat,
            1/2, none, false⟩, by simp, rfl, rfl⟩
        · intro _
          exact ⟨.encodingFailed, rfl⟩
      · intro e he
        exact (Except.error.inj he).symm
      · intro c hc hfb
        simp only [List.mem_singleton] at hc
        rw [hc] at hfb
        simp at hfb
    · simp only []
      by_cases hfit : size ≤ target
      · rw [if_pos hfit]
        refine ⟨?_, ?_, by simp, by simp, ?_⟩
        · constructor
          · rintro ⟨e, he⟩
            exact absurd he (by simp)
          · rintro ⟨c, hc, _, hn⟩
            simp only [List.mem_singleton] at hc
            rw [hc] at hn
            simp at hn
        · intro e he
          exact absurd he (by simp)
        · intro c hc hfb
          simp only [List.mem_singleton] at hc
          rw [hc] at hfb
          simp at hfb
      · rw [if_neg hfit]
        by_cases hsc : scale - 1/10 < 1/10
        · rw [if_pos hsc]
          refine ⟨?_, ?_, ?_, by simp, ?_⟩
          · constructor
            · rintro ⟨e, he⟩
              exact absurd he (by simp [fallbackOut])
            · rintro ⟨c, hc, hfb, hn⟩
              simp only [fallbackOut, List.mem_cons, List.mem_singleton,
                List.not_mem_nil, or_false] at hc
              rcases hc with hc | hc
              · rw [hc] at hn
                simp at hn
              · rw [hc] at hfb
                simp at hfb
          · intro e he
            exact absurd he (by simp [fallbackOut])
          · rw [List.dropLast_cons_of_ne_nil (by simp [fallbackOut])]
            intro c hc
            simp only [fallbackOut] at hc
            simp only [List.dropLast_single, List.mem_singleton] at hc
            rw [hc]
            simp
          · intro c hc hfb
            simp only [fallbackOut, List.mem_cons, List.mem_singleton,
              List.not_mem_nil, or_false] at hc
            rcases hc with hc | hc
            · rw [hc] at hfb
              simp at hfb
            · rw [hc]
              simp [fallbackOut]
        · rw [if_neg hsc]
          obtain ⟨ih1, ih2, ih3, ih4, ih5⟩ := ih (scale - 1/10)
            ((⌊(W : ℚ) * scale⌋).toNat) ((⌊(H : ℚ) * scale⌋).toNat)
          refine ⟨?_, ih2, ?_, by simp, ?_⟩
          · simp only [List.mem_cons]
            rw [ih1]
            constructor
            · rintro ⟨c, hc, hr⟩
              exact ⟨c, Or.inr hc, hr⟩
            · rintro ⟨c, hc | hc, hfb, hr⟩
              · rw [hc] at hr
                simp at hr
              · exact ⟨c, hc, hfb, hr⟩
          · rw [List.dropLast_cons_of_ne_nil ih4]
            intro c hc
            simp only [List.mem_cons] at hc
            rcases hc with hc | hc
            · rw [hc]
              simp
            · exact ih3 c hc
          · intro c hc hfb
            simp only [List.mem_cons] at hc
            rcases hc with hc | hc
            · rw [hc] at hfb
              simp at hfb
            · exact ih5 c hc hfb

/-- Every phase-1 encode attempt is a loop encode, never the fallback. -/
lemma phase1_calls_not_fallback (enc : Enc) (W H target : ℕ) :
    ∀ (fuel : ℕ) (minQ maxQ : ℚ) (best : Option Artifact),
      ∀ c ∈ (phase1Loop enc W H target minQ maxQ best fuel).calls,
        c.fallback = false := by
  intro fuel
  induction fuel with
  | zero => intro minQ maxQ best c hc; simp [phase1Loop] at hc
  | succ n ih =>
    intro minQ maxQ best c hc
    simp only [phase1Loop] at hc
    by_cases hle : minQ ≤ maxQ
    · rw [if_pos hle] at hc
      rcases henc : enc W H ((minQ + maxQ) / 2) with _ | size <;>
        rw [henc] at hc
      · simp at hc
        rw [hc]
      · simp only [] at hc
        by_cases hfit : size ≤ target
        · rw [if_pos hfit] at hc
          simp only [List.mem_cons] at hc
          rcases hc with hc | hc
          · rw [hc]
          · exact ih _ _ _ c hc
        · rw [if_neg hfit] at hc
          simp only [List.mem_cons] at hc
          rcases hc with hc | hc
          · rw [hc]
          · exact ih _ _ _ c hc
    · rw [if_neg hle] at hc
      simp at hc

/-- If every full-resolution encode succeeds but never fits the budget,
phase 1 leaves the best-so-far candidate untouched. -/
lemma phase1_nofit (enc : Enc) (W H target : ℕ)
    (hbig : ∀ q, ∃ s, enc W H q = some s ∧ ¬ s ≤ target) :
    ∀ (fuel : ℕ) (minQ maxQ : ℚ) (best : Option Artifact),
      (phase1Loop enc W H target minQ maxQ best fuel).res =
        .ok best := by
  intro fuel
  induction fuel with
  | zero => intro minQ maxQ best; simp [phase1Loop]
  | succ n ih =>
    intro minQ maxQ best
    simp only [phase1Loop]
    by_cases hle : minQ ≤ maxQ
    · rw [if_pos hle]
      obtain ⟨s, hs, hn⟩ := hbig ((minQ + maxQ) / 2)
      rw [hs]
      simp only []
      rw [if_neg hn]
      exact ih _ _ _
    · rw [if_neg hle]

/-- Any candidate phase 1 returns was either the incoming best-so-far or was
recorded on a fit: it is at the full resolution and within the budget
(provided the incoming candidate was). -/
lemma phase1_res_some (enc : Enc) (W H target : ℕ) :
    ∀ (fuel : ℕ) (minQ maxQ : ℚ) (best : Option Artifact) (a : Artifact),
      (∀ b, best = some b →
        b.width = W ∧ b.height = H ∧ b.sizeBytes ≤ target) →
      (phase1Loop enc W H target minQ maxQ best fuel).res = .ok (some a) →
      a.width = W ∧ a.height = H ∧ a.sizeBytes ≤ target := by
  intro fuel
  induction fuel with
  | zero =>
    intro minQ maxQ best a hbest hres
    simp only [phase1Loop] at hres
    exact hbest a (Except.ok.inj hres)
  | succ n ih =>
    intro minQ maxQ best a hbest hres
    simp only [phase1Loop] at hres
    by_cases hle : minQ ≤ maxQ
    · rw [if_pos hle] at hres
      rcases henc : enc W H ((minQ + maxQ) / 2) with _ | size <;>
        rw [henc] at hres
      · simp at hres
      · simp only [] at hres
        by_cases hfit : size ≤ target
        · rw [if_pos hfit] at hres
          refine ih _ _ _ _ ?_ hres
          intro b hb
          rw [← Option.some.inj hb]
          exact ⟨rfl, rfl, hfit⟩
        · rw [if_neg hfit] at hres
          exact ih _ _ _ _ hbest hres
    · rw [if_neg hle] at hres
      exact hbest a (Except.ok.inj hres)

/-- If the encoder is monotone in quality and quality `1.0` at full
resolution already fits, phase 1 returns a candidate at full resolution
within the budget. -/
lemma phase1_allfit (sz : ℕ → ℕ → ℚ → ℕ) (W H target : ℕ)
    (hmono : ∀ q q', q ≤ q' → sz W H q ≤ sz W H q')
    (hfit1 : sz W H 1 ≤ target) :
    ∀ (fuel : ℕ) (minQ maxQ : ℚ) (best : Option Artifact),
      maxQ ≤ 1 →
      ((minQ ≤ maxQ ∧ 1 ≤ fuel) ∨ ∃ b, best = some b) →
      (∀ b, best = some b →
        b.width = W ∧ b.height = H ∧ b.sizeBytes ≤ target) →
      ∃ a, (phase1Loop (encOf sz) W H target minQ maxQ best fuel).res =
          .ok (some a) ∧
        a.width = W ∧ a.height = H ∧ a.sizeBytes ≤ target := by
  intro fuel
  induction fuel with
  | zero =>
    intro minQ maxQ best _ halt hbest
    rcases halt with ⟨_, hf⟩ | ⟨b, hb⟩
    · omega
    · exact ⟨b, by simp [phase1Loop, hb], hbest b hb⟩
  | succ n ih =>
    intro minQ maxQ best hmax halt hbest
    by_cases hle : minQ ≤ maxQ
    · have hmid : (minQ + maxQ) / 2 ≤ 1 := by linarith
      have hsz : sz W H ((minQ + maxQ) / 2) ≤ target :=
        le_trans (hmono _ _ hmid) hfit1
      have hstep := ih ((minQ + maxQ) / 2 + 1/20) maxQ
        (some ⟨W, H, sz W H ((minQ + maxQ) / 2)⟩) hmax
        (Or.inr ⟨_, rfl⟩)
        (by intro b hb; rw [← Option.some.inj hb]; exact ⟨rfl, rfl, hsz⟩)
      obtain ⟨a, ha, hgood⟩ := hstep
      refine ⟨a, ?_, hgood⟩
      simp only [phase1Loop, encOf]
      rw [if_pos hle, if_pos hsz]
      exact ha
    · rcases halt with ⟨hc, _⟩ | ⟨b, hb⟩
      · exact absurd hc hle
      · refine ⟨b, ?_, hbest b hb⟩
        simp only [phase1Loop]
        rw [if_neg hle, hb]

/-- The embedded phase-1 loop computes exactly the specification-side
rendering of the search. -/
lemma phase1_res_eq_spec (enc : Enc) (W H target : ℕ) :
    ∀ (fuel : ℕ) (minQ maxQ : ℚ) (best : Option Artifact),
      (phase1Loop enc W H target minQ maxQ best fuel).res =
        phase1Spec enc W H target fuel minQ maxQ best := by
  intro fuel
  induction fuel with
  | zero => intro minQ maxQ best; simp [phase1Loop, phase1Spec]
  | succ n ih =>
    intro minQ maxQ best
    simp only [phase1Loop, phase1Spec]
    by_cases hle : minQ ≤ maxQ
    · rw [if_pos hle, if_pos hle]
      rcases henc : enc W H ((minQ + maxQ) / 2) with _ | size
      · rfl
      · simp only []
        by_cases hfit : size ≤ target
        · rw [if_pos hfit, if_pos hfit]
          exact ih _ _ _
        · rw [if_neg hfit, if_neg hfit]
          exact ih _ _ _
    · rw [if_neg hle, if_neg hle]

/-- On nonnegative values below `2^32`, the WebIDL `unsigned long`
conversion is the floor. -/
lemma toUint32_eq_floor (q : ℚ) (h0 : 0 ≤ q) (h1 : q < 2 ^ 32) :
    toUint32 q = (⌊q⌋).toNat := by
  unfold toUint32 truncTowardZero
  rw [if_pos h0]
  have hl : 0 ≤ ⌊q⌋ := Int.floor_nonneg.mpr h0
  have hu : ⌊q⌋ < 2 ^ 32 := by
    have hle : (⌊q⌋ : ℚ) ≤ q := Int.floor_le q
    have hlt : (⌊q⌋ : ℚ) < 2 ^ 32 := lt_of_le_of_lt hle h1
    exact_mod_cast hlt
  rw [Int.emod_eq_of_lt hl hu]

/-- Cast arithmetic: stepping a scale of the form `k/10` down by `0.1`. -/
lemma scale_sub_step {k : ℕ} (hk : 1 ≤ k) :
    ((k : ℚ))/10 - 1/10 = ((k - 1 : ℕ) : ℚ)/10 := by
  have hc : ((k - 1 : ℕ) : ℚ) = (k : ℚ) - 1 := by
    have := Nat.cast_sub (R := ℚ) hk
    simpa using this
  rw [hc]
  ring

/-- If every scaled loop encode at quality `0.5` succeeds but never fits,
the phase-2 loop started at any scale `k/10` (with `k ≥ 1` and enough
fuel, as at the call site) runs down to scale `0.1` and returns the
exhaustion fallback's raw answer — quality `0.1` at
`floor(original * 0.1)`, whatever the encoder produced — and the fallback
attempt appears among the calls. -/
lemma phase2_nofit (enc : Enc) (W H target : ℕ)
    (hbig : ∀ w h, ∃ s, enc w h (1/2) = some s ∧ ¬ s ≤ target) :
    ∀ (fuel : ℕ) (scale : ℚ) (w h : ℕ),
      (∃ k : ℕ, 1 ≤ k ∧ k ≤ fuel ∧ scale = (k : ℚ)/10) →
      (phase2Loop enc W H target scale w h fuel).res =
        .ok ⟨enc ((⌊(W : ℚ) * (1/10)⌋).toNat) ((⌊(H : ℚ) * (1/10)⌋).toNat)
            (1/10),
          (⌊(W : ℚ) * (1/10)⌋).toNat, (⌊(H : ℚ) * (1/10)⌋).toNat⟩ ∧
      (⟨(⌊(W : ℚ) * (1/10)⌋).toNat, (⌊(H : ℚ) * (1/10)⌋).toNat, 1/10,
          enc ((⌊(W : ℚ) * (1/10)⌋).toNat) ((⌊(H : ℚ) * (1/10)⌋).toNat)
            (1/10), true⟩ : EncCall) ∈
        (phase2Loop enc W H target scale w h fuel).calls := by
  intro fuel
  induction fuel with
  | zero =>
    intro scale w h hk
    obtain ⟨k, hk1, hk0, _⟩ := hk
    omega
  | succ n ih =>
    intro scale w h hk
    obtain ⟨k, hk1, hkf, rfl⟩ := hk
    simp only [phase2Loop]
    obtain ⟨s, hs, hn⟩ := hbig ((⌊(W : ℚ) * ((k : ℚ)/10)⌋).toNat)
      ((⌊(H : ℚ) * ((k : ℚ)/10)⌋).toNat)
    rw [hs]
    simp only []
    rw [if_neg hn]
    rcases Nat.lt_or_ge k 2 with h2 | h2
    · have hk1e : k = 1 := by omega
      subst hk1e
      rw [if_pos (by norm_num)]
      constructor
      · simp only [fallbackOut, Nat.cast_one]
      · simp [fallbackOut, Nat.cast_one]
    · have h2q : (2 : ℚ) ≤ (k : ℚ) := by exact_mod_cast h2
      rw [if_neg (by intro hlt; linarith)]
      rw [scale_sub_step hk1]
      obtain ⟨ihres, ihmem⟩ := ih _ _ _ ⟨k - 1, by omega, by omega, rfl⟩
      exact ⟨ihres, List.mem_cons_of_mem _ ihmem⟩

/-- The phase-2 loop started at a scale `k/10` with `k ≥ 1` gives the same
output under any fuel of at least `k`: the iteration cap is never the
binding limit. -/
lemma phase2_fuel_irrel (enc : Enc) (W H target : ℕ) :
    ∀ (k : ℕ), 1 ≤ k → ∀ (fuel : ℕ), k ≤ fuel → ∀ (w h : ℕ),
      phase2Loop enc W H target ((k : ℚ)/10) w h fuel =
        phase2Loop enc W H target ((k : ℚ)/10) w h k := by
  intro k
  induction k with
  | zero => intro h; omega
  | succ m ih =>
    intro _ fuel hkf w h
    rcases fuel with _ | f
    · omega
    simp only [phase2Loop]
    rcases henc : enc ((⌊(W : ℚ) * (((m + 1 : ℕ) : ℚ)/10)⌋).toNat)
        ((⌊(H : ℚ) * (((m + 1 : ℕ) : ℚ)/10)⌋).toNat) (1/2) with _ | size
    · rfl
    · simp only []
      by_cases hfit : size ≤ target
      · rw [if_pos hfit, if_pos hfit]
      · rw [if_neg hfit, if_neg hfit]
        by_cases hsc : ((m + 1 : ℕ) : ℚ)/10 - 1/10 < 1/10
        · rw [if_pos hsc, if_pos hsc]
        · rw [if_neg hsc, if_neg hsc]
          have hm1 : 1 ≤ m := by
            by_contra hm
            have hm0 : m = 0 := by omega
            subst hm0
            exact hsc (by norm_num)
          have hstep := scale_sub_step (k := m + 1) (by omega)
          have hmm : (m + 1 : ℕ) - 1 = m := by omega
          rw [hmm] at hstep
          rw [hstep]
          have hl := ih hm1 f (by omega)
            ((⌊(W : ℚ) * (((m + 1 : ℕ) : ℚ)/10)⌋).toNat)
            ((⌊(H : ℚ) * (((m + 1 : ℕ) : ℚ)/10)⌋).toNat)
          have hr := ih hm1 m (le_refl m)
            ((⌊(W : ℚ) * (((m + 1 : ℕ) : ℚ)/10)⌋).toNat)
            ((⌊(H : ℚ) * (((m + 1 : ℕ) : ℚ)/10)⌋).toNat)
          rw [hl, hr]

/-- Boolean evaluation facts for quality comparisons. -/
lemma half_beq_half : ((1/2 : ℚ) == (1/2 : ℚ)) = true := by
  rw [beq_iff_eq]

/-- The fallback quality is not the loop quality. -/
lemma tenth_beq_half : ((1/10 : ℚ) == (1/2 : ℚ)) = false := by
  rw [beq_eq_false_iff_ne]
  norm_num

/-- The loop quality is not the fallback quality. -/
lemma half_beq_tenth : ((1/2 : ℚ) == (1/10 : ℚ)) = false := by
  rw [beq_eq_false_iff_ne]
  norm_num

/-- The fallback quality compared with itself. -/
lemma tenth_beq_tenth : ((1/10 : ℚ) == (1/10 : ℚ)) = true := by
  rw [beq_iff_eq]

/-- Phase 2 makes at most `fuel` encode attempts at quality `0.5` and at
most one (the fallback) at quality `0.1`. -/
lemma phase2_filter_counts (enc : Enc) (W H target : ℕ) :
    ∀ (fuel : ℕ) (scale : ℚ) (w h : ℕ),
      ((phase2Loop enc W H target scale w h fuel).calls.filter
        (fun c => c.q == 1/2)).length ≤ fuel ∧
      ((phase2Loop enc W H target scale w h fuel).calls.filter
        (fun c => c.q == 1/10)).length ≤ 1 := by
  intro fuel
  induction fuel with
  | zero =>
    intro scale w h
    simp only [phase2Loop, fallbackOut, List.filter, tenth_beq_half,
      tenth_beq_tenth, List.length_cons, List.length_nil]
    omega
  | succ n ih =>
    intro scale w h
    simp only [phase2Loop]
    rcases henc : enc ((⌊(W : ℚ) * scale⌋).toNat) ((⌊(H : ℚ) * scale⌋).toNat)
        (1/2) with _ | size
    · simp only [List.filter, half_beq_half, half_beq_tenth,
        List.length_cons, List.length_nil]
      omega
    · simp only []
      by_cases hfit : size ≤ target
      · rw [if_pos hfit]
        simp only [List.filter, half_beq_half, half_beq_tenth,
          List.length_cons, List.length_nil]
        omega
      · rw [if_neg hfit]
        by_cases hsc : scale - 1/10 < 1/10
        · rw [if_pos hsc]
          simp only [fallbackOut, List.filter, half_beq_half,
            half_beq_tenth, tenth_beq_half, tenth_beq_tenth,
            List.length_cons, List.length_nil]
          omega
        · rw [if_neg hsc]
          obtain ⟨ih1, ih2⟩ := ih (scale - 1/10) ((⌊(W : ℚ) * scale⌋).toNat)
            ((⌊(H : ℚ) * scale⌋).toNat)
          constructor
          · simpa only [List.filter, half_beq_half, List.length_cons]
              using Nat.succ_le_succ ih1
          · simpa only [List.filter, half_beq_tenth] using ih2

/-- Every quality-`0.5` encode attempt of the phase-2 loop started at a
scale `k/10` (with `1 ≤ k ≤ 9`) happens at dimensions
`floor(original * j/10)` for some scale `j/10`, `1 ≤ j ≤ 9`. -/
lemma phase2_calls_dims (enc : Enc) (W H target : ℕ) :
    ∀ (fuel : ℕ) (scale : ℚ) (w h : ℕ),
      (∃ k : ℕ, 1 ≤ k ∧ k ≤ 9 ∧ scale = (k : ℚ)/10) →
      ∀ c ∈ (phase2Loop enc W H target scale w h fuel).calls, c.q = 1/2 →
        ∃ j : ℕ, 1 ≤ j ∧ j ≤ 9 ∧
          c.w = (⌊(W : ℚ) * ((j : ℚ)/10)⌋).toNat ∧
          c.h = (⌊(H : ℚ) * ((j : ℚ)/10)⌋).toNat := by
  intro fuel
  induction fuel with
  | zero =>
    intro scale w h _ c hc hq
    have := fallbackOut_calls_quality enc w h c hc
    rw [this] at hq
    norm_num at hq
  | succ n ih =>
    intro scale w h hk c hc hq
    obtain ⟨k, hk1, hk9, rfl⟩ := hk
    simp only [phase2Loop] at hc
    rcases henc : enc ((⌊(W : ℚ) * ((k : ℚ)/10)⌋).toNat)
        ((⌊(H : ℚ) * ((k : ℚ)/10)⌋).toNat) (1/2) with _ | size <;>
      rw [henc] at hc
    · simp at hc
      rw [hc]
      exact ⟨k, hk1, hk9, rfl, rfl⟩
    · simp only [] at hc
      by_cases hfit : size ≤ target
      · rw [if_pos hfit] at hc
        simp at hc
        rw [hc]
        exact ⟨k, hk1, hk9, rfl, rfl⟩
      · rw [if_neg hfit] at hc
        by_cases hsc : (k : ℚ)/10 - 1/10 < 1/10
        · rw [if_pos hsc] at hc
          simp only [List.mem_cons] at hc
          rcases hc with hc | hc
          · rw [hc]
            exact ⟨k, hk1, hk9, rfl, rfl⟩
          · have := fallbackOut_calls_quality enc _ _ c hc
            rw [this] at hq
            norm_num at hq
        · rw [if_neg hsc] at hc
          simp only [List.mem_cons] at hc
          rcases hc with hc | hc
          · rw [hc]
            exact ⟨k, hk1, hk9, rfl, rfl⟩
          · have hk2 : 2 ≤ k := by
              by_contra hlt
              have hke : k = 1 := by omega
              subst hke
              exact hsc (by norm_num)
            rw [scale_sub_step hk1] at hc
            exact ih _ _ _ ⟨k - 1, by omega, by omega, rfl⟩ c hc hq

/-! ### Claim theorems -/

/-- C1: for every decodable image and every target so small that no
phase-1 quality (at full resolution) and no phase-2 scaled encode (at
quality 0.5) fits the budget, `compressImageToTarget` still returns a
non-error artifact: one final encode at quality 0.1 at the last attempted
scaled dimensions (`floor(original * 0.1)`), returned unconditionally —
no error is raised for the budget being too small, and the artifact's
size is whatever that final encode produced, budget notwithstanding. -/
theorem c1_exhaustion_fallback (sz : ℕ → ℕ → ℚ → ℕ) (img : Dims) (kb : ℕ)
    (hfull : ∀ q, ¬ sz img.w img.h q ≤ kb * 1024)
    (hscaled : ∀ w h, ¬ sz w h (1/2) ≤ kb * 1024) :
    compressImageToTarget (encOf sz) true img kb =
      .ok ⟨some (sz ((⌊(img.w : ℚ) * (1/10)⌋).toNat)
          ((⌊(img.h : ℚ) * (1/10)⌋).toNat) (1/10)),
        (⌊(img.w : ℚ) * (1/10)⌋).toNat,
        (⌊(img.h : ℚ) * (1/10)⌋).toNat⟩ := by
  have hp1 : (phase1Loop (encOf sz) img.w img.h (kb * 1024)
      (1/100) 1 none 10).res = .ok none :=
    phase1_nofit (encOf sz) img.w img.h (kb * 1024)
      (fun q => ⟨sz img.w img.h q, rfl, hfull q⟩) 10 (1/100) 1 none
  have hp2 := (phase2_nofit (encOf sz) img.w img.h (kb * 1024)
    (fun w h => ⟨sz w h (1/2), rfl, hscaled w h⟩) 15 (9/10)
    img.w img.h ⟨9, by norm_num, by norm_num, by norm_num⟩).1
  simp only [compressImageToTarget, compressRun, if_pos]
  rw [hp1]
  exact hp2

/-- C1 witness: a 100-by-80 image whose every encode is a gigabyte against
a 1 KB budget still yields a non-error artifact at the 0.1-scale
dimensions, encoded at quality 0.1. -/
theorem c1_exhaustion_fallback_witness :
    compressImageToTarget (encOf (fun _ _ _ => 10 ^ 9)) true ⟨100, 80⟩ 1 =
      .ok ⟨some (10 ^ 9), 10, 8⟩ := by
  have h := c1_exhaustion_fallback (fun _ _ _ => 10 ^ 9) ⟨100, 80⟩ 1
    (fun q => by norm_num) (fun w h => by norm_num)
  rw [h]
  norm_num
  exact ⟨rfl, rfl⟩

/-- C2: phase 1 of `compressImageToTarget` follows exactly the specified
search (interval `[0.01, 1.0]`, up to 10 iterations while `minQ ≤ maxQ`,
full-resolution encode at the midpoint, fit records the candidate and sets
`minQ = midQ + 0.05`, miss sets `maxQ = midQ - 0.05`), and a recorded
candidate is returned immediately at the image's original dimensions. -/
theorem c2_phase1_refines (enc : Enc) (img : Dims) (kb : ℕ) :
    (phase1Loop enc img.w img.h (kb * 1024) (1/100) 1 none 10).res =
        phase1Spec enc img.w img.h (kb * 1024) 10 (1/100) 1 none ∧
    ∀ a, phase1Spec enc img.w img.h (kb * 1024) 10 (1/100) 1 none =
        .ok (some a) →
      compressImageToTarget enc true img kb =
          .ok ⟨some a.sizeBytes, img.w, img.h⟩ ∧
        a.width = img.w ∧ a.height = img.h := by
  refine ⟨phase1_res_eq_spec enc img.w img.h (kb * 1024) 10 (1/100) 1 none,
    ?_⟩
  intro a ha
  have hres : (phase1Loop enc img.w img.h (kb * 1024)
      (1/100) 1 none 10).res = .ok (some a) := by
    rw [phase1_res_eq_spec enc img.w img.h (kb * 1024) 10 (1/100) 1 none]
    exact ha
  have hdims := phase1_res_some enc img.w img.h (kb * 1024) 10 (1/100) 1
    none a (by simp) hres
  refine ⟨?_, hdims.1, hdims.2.1⟩
  simp only [compressImageToTarget, compressRun, if_pos]
  rw [hres]

/-- C2 witness: with a constant 500-byte encoder and a 1 KB budget the
spec-side search records a candidate, and the compressor returns it at the
original 100-by-80 dimensions. -/
theorem c2_phase1_refines_witness :
    compressImageToTarget (encOf (fun _ _ _ => 500)) true ⟨100, 80⟩ 1 =
      .ok ⟨some 500, 100, 80⟩ :=
  ((c2_phase1_refines (encOf (fun _ _ _ => 500)) ⟨100, 80⟩ 1).2
    ⟨100, 80, 500⟩ (by
      rw [show (10 : ℕ) = 9 + 1 from rfl, phase1Spec]
      norm_num [encOf]
      rw [show (9 : ℕ) = 8 + 1 from rfl, phase1Spec]
      norm_num [encOf]
      rw [show (8 : ℕ) = 7 + 1 from rfl, phase1Spec]
      norm_num [encOf]
      rw [show (7 : ℕ) = 6 + 1 from rfl, phase1Spec]
      norm_num [encOf]
      rw [show (6 : ℕ) = 5 + 1 from rfl, phase1Spec]
      norm_num)).1

/-- C3: if encoded size is monotone in quality and quality 1.0 at full
resolution already fits the budget, phase 1 returns a result at the
original dimensions whose (non-null) blob is within the budget, and
phase 2 contributes no encode attempts (the run's attempts are exactly
phase 1's). -/
theorem c3_large_budget_fits (sz : ℕ → ℕ → ℚ → ℕ) (img : Dims) (kb : ℕ)
    (hmono : ∀ q q', q ≤ q' → sz img.w img.h q ≤ sz img.w img.h q')
    (hfit : sz img.w img.h 1 ≤ kb * 1024) :
    ∃ r, compressImageToTarget (encOf sz) true img kb = .ok r ∧
      r.width = img.w ∧ r.height = img.h ∧
      (∃ s, r.blob = some s ∧ s ≤ kb * 1024) ∧
      (compressRun (encOf sz) true img kb).calls =
        (phase1Loop (encOf sz) img.w img.h (kb * 1024)
          (1/100) 1 none 10).calls := by
  obtain ⟨a, ha, h1, h2, h3⟩ := phase1_allfit sz img.w img.h (kb * 1024)
    hmono hfit 10 (1/100) 1 none (by norm_num)
    (Or.inl ⟨by norm_num, by norm_num⟩) (by simp)
  refine ⟨⟨some a.sizeBytes, img.w, img.h⟩, ?_, rfl, rfl,
    ⟨a.sizeBytes, rfl, h3⟩, ?_⟩
  · simp only [compressImageToTarget, compressRun, if_pos]
    rw [ha]
  · simp only [compressRun, if_pos]
    rw [ha]

/-- C3 witness: a constant 100-byte encoder (trivially monotone) against a
1 KB budget fits in phase 1. -/
theorem c3_large_budget_fits_witness :
    ∃ r, compressImageToTarget (encOf (fun _ _ _ => 100)) true ⟨20, 30⟩ 1 =
        .ok r ∧
      r.width = 20 ∧ r.height = 30 ∧
      (∃ s, r.blob = some s ∧ s ≤ 1 * 1024) ∧
      (compressRun (encOf (fun _ _ _ => 100)) true ⟨20, 30⟩ 1).calls =
        (phase1Loop (encOf (fun _ _ _ => 100)) 20 30 (1 * 1024)
          (1/100) 1 none 10).calls :=
  c3_large_budget_fits (fun _ _ _ => 100) ⟨20, 30⟩ 1
    (fun _ _ _ => le_refl 100) (by norm_num)

/-- C4: per compression request, phase 1 makes at most 10 encode attempts,
the phase-2 loop at most 15 (all at quality 0.5), the exhaustion fallback
at most one (at quality 0.1), and the whole run at most 26; the model is a
total function, so every run terminates. -/
theorem c4_encode_budget (enc : Enc) (ctx : Bool) (img : Dims) (kb : ℕ) :
    (phase1Loop enc img.w img.h (kb * 1024)
      (1/100) 1 none 10).calls.length ≤ 10 ∧
    ((phase2Loop enc img.w img.h (kb * 1024) (9/10) img.w img.h
      15).calls.filter (fun c => c.q == 1/2)).length ≤ 15 ∧
    ((phase2Loop enc img.w img.h (kb * 1024) (9/10) img.w img.h
      15).calls.filter (fun c => c.q == 1/10)).length ≤ 1 ∧
    (compressRun enc ctx img kb).calls.length ≤ 26 := by
  obtain ⟨hf1, hf2⟩ := phase2_filter_counts enc img.w img.h (kb * 1024) 15
    (9/10) img.w img.h
  refine ⟨phase1_calls_length enc img.w img.h (kb * 1024) 10 (1/100) 1 none,
    hf1, hf2, ?_⟩
  simp only [compressRun]
  by_cases hctx : ctx = true
  · rw [if_pos hctx]
    have h1 := phase1_calls_length enc img.w img.h (kb * 1024) 10
      (1/100) 1 none
    have h2 := phase2_calls_length enc img.w img.h (kb * 1024) 15 (9/10)
      img.w img.h
    rcases hres : (phase1Loop enc img.w img.h (kb * 1024)
        (1/100) 1 none 10).res with e | oa
    · simpa using le_trans h1 (by norm_num)
    · rcases oa with _ | art
      · simp only [List.length_append]
        omega
      · simpa using le_trans h1 (by norm_num)
  · rw [if_neg hctx]
    simp

/-- C5 counterexample: against a 1 KB budget, an encoder that yields a
gigabyte at every loop encode but no output at the 10-by-8
exhaustion-fallback encode drives the run through both phases into the
fallback; that encode yields no output, yet `compressImageToTarget` does
not fail with `encodingFailed` — it returns successfully with a null
blob, because the source never reads the fallback blob's size. -/
theorem c5_null_fallback_counterexample :
    compressImageToTarget
        (fun w _ q => if w = 10 ∧ q = 1/10 then none else some (10 ^ 9))
        true ⟨100, 80⟩ 1 = .ok ⟨none, 10, 8⟩ ∧
    ∃ c ∈ (compressRun
        (fun w _ q => if w = 10 ∧ q = 1/10 then none else some (10 ^ 9))
        true ⟨100, 80⟩ 1).calls, c.res = none := by
  have hb1 : ∀ q : ℚ, ∃ s,
      (fun (w _ : ℕ) (q : ℚ) =>
        if w = 10 ∧ q = 1/10 then none else some (10 ^ 9)) 100 80 q =
        some s ∧ ¬ s ≤ 1 * 1024 := by
    intro q
    refine ⟨10 ^ 9, ?_, by norm_num⟩
    have hcond : ¬((100 : ℕ) = 10 ∧ q = 1/10) := by
      rintro ⟨h, _⟩
      omega
    show (if (100 : ℕ) = 10 ∧ q = 1/10 then none else some (10 ^ 9)) =
      some (10 ^ 9)
    rw [if_neg hcond]
  have hb2 : ∀ w h : ℕ, ∃ s,
      (fun (w _ : ℕ) (q : ℚ) =>
        if w = 10 ∧ q = 1/10 then none else some (10 ^ 9)) w h (1/2) =
        some s ∧ ¬ s ≤ 1 * 1024 := by
    intro w h
    refine ⟨10 ^ 9, ?_, by norm_num⟩
    have hcond : ¬(w = 10 ∧ (1/2 : ℚ) = 1/10) := by
      rintro ⟨_, hq⟩
      norm_num at hq
    show (if w = 10 ∧ (1/2 : ℚ) = 1/10 then none else some (10 ^ 9)) =
      some (10 ^ 9)
    rw [if_neg hcond]
  have hp1 : (phase1Loop
      (fun (w _ : ℕ) (q : ℚ) =>
        if w = 10 ∧ q = 1/10 then none else some (10 ^ 9))
      100 80 (1 * 1024) (1/100) 1 none 10).res = .ok none :=
    phase1_nofit _ 100 80 (1 * 1024) hb1 10 (1/100) 1 none
  obtain ⟨hp2res, hp2mem⟩ := phase2_nofit
    (fun (w _ : ℕ) (q : ℚ) =>
      if w = 10 ∧ q = 1/10 then none else some (10 ^ 9))
    100 80 (1 * 1024) hb2 15 (9/10) 100 80
    ⟨9, by norm_num, by norm_num, by norm_num⟩
  have htw : (⌊((100 : ℕ) : ℚ) * (1/10)⌋).toNat = 10 := by
    norm_num
    rfl
  have hth : (⌊((80 : ℕ) : ℚ) * (1/10)⌋).toNat = 8 := by
    norm_num
    rfl
  constructor
  · simp only [compressImageToTarget, compressRun, if_pos]
    rw [hp1, hp2res, htw, hth]
    norm_num
  · refine ⟨⟨(⌊((100 : ℕ) : ℚ) * (1/10)⌋).toNat,
      (⌊((80 : ℕ) : ℚ) * (1/10)⌋).toNat, 1/10,
      (fun (w _ : ℕ) (q : ℚ) =>
        if w = 10 ∧ q = 1/10 then none else some (10 ^ 9))
        ((⌊((100 : ℕ) : ℚ) * (1/10)⌋).toNat)
        ((⌊((80 : ℕ) : ℚ) * (1/10)⌋).toNat) (1/10), true⟩, ?_, ?_⟩
    · have hcalls : (compressRun
          (fun (w _ : ℕ) (q : ℚ) =>
            if w = 10 ∧ q = 1/10 then none else some (10 ^ 9))
          true ⟨100, 80⟩ 1).calls =
          (phase1Loop
            (fun (w _ : ℕ) (q : ℚ) =>
              if w = 10 ∧ q = 1/10 then none else some (10 ^ 9))
            100 80 (1 * 1024) (1/100) 1 none 10).calls ++
          (phase2Loop
            (fun (w _ : ℕ) (q : ℚ) =>
              if w = 10 ∧ q = 1/10 then none else some (10 ^ 9))
            100 80 (1 * 1024) (9/10) 100 80 15).calls := by
        simp only [compressRun, if_true]
        rw [hp1]
      rw [hcalls]
      exact List.mem_append_right _ hp2mem
    · show (fun (w _ : ℕ) (q : ℚ) =>
          if w = 10 ∧ q = 1/10 then none else some (10 ^ 9))
          ((⌊((100 : ℕ) : ℚ) * (1/10)⌋).toNat)
          ((⌊((80 : ℕ) : ℚ) * (1/10)⌋).toNat) (1/10) = none
      rw [htw, hth]
      norm_num

/-- C5 (amended): the compressor fails with `encodingFailed` exactly when
some phase-1 or phase-2 loop encode — an encode whose result's size is
read and compared against the target — yields no output, and such a
failure is terminal: the failed encode is the last attempt of the run (no
retry).  The exhaustion-fallback encode is the one exception: the source
never reads its output's size, so a null fallback blob is not an error —
the run returns successfully with a null blob at the fallback's
dimensions. -/
theorem c5_loop_encoding_failure (enc : Enc) (ctx : Bool) (img : Dims)
    (kb : ℕ) :
    ((compressRun enc ctx img kb).res = .error .encodingFailed ↔
      ∃ c ∈ (compressRun enc ctx img kb).calls,
        c.fallback = false ∧ c.res = none) ∧
    (∀ c ∈ (compressRun enc ctx img kb).calls.dropLast, c.res ≠ none) ∧
    (∀ c ∈ (compressRun enc ctx img kb).calls, c.fallback = true →
      c.res = none →
      (compressRun enc ctx img kb).res = .ok ⟨none, c.w, c.h⟩) := by
  obtain ⟨p11, p12, p13⟩ := phase1_none_structure enc img.w img.h
    (kb * 1024) 10 (1/100) 1 none
  have p1fb := phase1_calls_not_fallback enc img.w img.h (kb * 1024) 10
    (1/100) 1 none
  obtain ⟨p21, p22, p23, p24, p25⟩ := phase2_none_structure enc img.w
    img.h (kb * 1024) 15 (9/10) img.w img.h
  simp only [compressRun]
  by_cases hctx : ctx = true
  · rw [if_pos hctx]
    rcases hres : (phase1Loop enc img.w img.h (kb * 1024)
        (1/100) 1 none 10).res with e | oa
    · have he : e = .encodingFailed := p12 e hres
      subst he
      refine ⟨⟨fun _ => ?_, fun _ => rfl⟩, p13, ?_⟩
      · obtain ⟨c, hc, hn⟩ := p11.mp ⟨_, hres⟩
        exact ⟨c, hc, p1fb c hc, hn⟩
      · intro c hc hfb _
        rw [p1fb c hc] at hfb
        exact absurd hfb (by simp)
    · rcases oa with _ | art
      · -- phase 1 found nothing: phase 2 runs
        have hp1none : ∀ c ∈ (phase1Loop enc img.w img.h (kb * 1024)
            (1/100) 1 none 10).calls, c.res ≠ none := by
          intro c hc hn
          obtain ⟨e, he⟩ := p11.mpr ⟨c, hc, hn⟩
          rw [hres] at he
          exact Except.noConfusion he
        refine ⟨⟨?_, ?_⟩, ?_, ?_⟩
        · intro h2err
          obtain ⟨c, hc, hfb, hn⟩ := p21.mp ⟨_, h2err⟩
          exact ⟨c, List.mem_append_right _ hc, hfb, hn⟩
        · rintro ⟨c, hc, hfb, hn⟩
          rcases List.mem_append.mp hc with hc | hc
          · exact absurd hn (hp1none c hc)
          · obtain ⟨e, he⟩ := p21.mpr ⟨c, hc, hfb, hn⟩
            rw [p22 e he] at he
            exact he
        · rw [dropLast_append_ne_nil _ p24]
          intro c hc
          rcases List.mem_append.mp hc with hc | hc
          · exact hp1none c hc
          · exact p23 c hc
        · intro c hc hfb hn
          rcases List.mem_append.mp hc with hc | hc
          · rw [p1fb c hc] at hfb
            exact absurd hfb (by simp)
          · have hres2 := p25 c hc hfb
            rw [hn] at hres2
            exact hres2
      · -- phase 1 returned a candidate
        refine ⟨⟨?_, ?_⟩, p13, ?_⟩
        · intro h
          exact absurd h (by simp)
        · rintro ⟨c, hc, _, hn⟩
          obtain ⟨e, he⟩ := p11.mpr ⟨c, hc, hn⟩
          rw [hres] at he
          exact Except.noConfusion he
        · intro c hc hfb _
          rw [p1fb c hc] at hfb
          exact absurd hfb (by simp)
  · rw [if_neg hctx]
    refine ⟨⟨?_, ?_⟩, ?_, ?_⟩ <;> simp

/-- Concrete evaluation: one failing loop encode ends the run
immediately. -/
lemma phase1Loop_none_eval :
    phase1Loop (fun _ _ _ => none) 10 10 1024 (1/100) 1 none 10 =
      ⟨.error .encodingFailed, [⟨10, 10, 101/200, none, false⟩], []⟩ := by
  rw [show (10 : ℕ) = 9 + 1 from rfl, phase1Loop]
  norm_num

/-- Concrete evaluation of a whole run whose encoder always fails. -/
lemma compressRun_none_eval :
    compressRun (fun _ _ _ => none) true ⟨10, 10⟩ 1 =
      ⟨.error .encodingFailed, [⟨10, 10, 101/200, none, false⟩], []⟩ := by
  simp only [compressRun]
  norm_num [phase1Loop_none_eval]

/-- C5 witness: an encoder that always yields no output makes the
compressor fail with `encodingFailed` on its very first (loop) attempt. -/
theorem c5_loop_encoding_failure_witness :
    (compressRun (fun _ _ _ => none) true ⟨10, 10⟩ 1).res =
      .error .encodingFailed :=
  (c5_loop_encoding_failure (fun _ _ _ => none) true ⟨10, 10⟩ 1).1.mpr
    ⟨⟨10, 10, 101/200, none, false⟩,
      by rw [compressRun_none_eval]; simp, rfl, rfl⟩

/-- C6 counterexample: a 3-pixel-wide image displayed at width 2 gives
`scaleX = 3/2`; cropping a display-width of 1 yields an artifact of width
`1` (the canvas setter truncates `1.5`), while the claimed formula
`round(region.width * scaleX)` gives `2`. -/
theorem c6_crop_dims_counterexample :
    getCroppedImg true (fun _ _ _ _ => some 100) ⟨3, 1, 2, 1⟩ ⟨0, 0, 1, 1⟩
        "image/jpeg" = .ok ⟨1, 1, 100⟩ ∧
    round ((1 : ℚ) * ((3 : ℚ)/(2 : ℚ))) = 2 ∧ (1 : ℤ) ≠ 2 := by
  refine ⟨?_, ?_, by norm_num⟩
  · norm_num [getCroppedImg, toUint32, truncTowardZero]
  · rw [round_eq]
    norm_num

/-- C6 (amended): for every valid crop region within the image bounds (and
natural dimensions below `2^32`, with a working context and encoder), the
cropped artifact's pixel dimensions are the truncations
`floor(region.width * scaleX)` by `floor(region.height * scaleY)` — the
canvas `unsigned long` setters truncate rather than round. -/
theorem c6_crop_dims_floor (cropEnc : CropEnc) (image : ImgEl)
    (crop : PixelCrop) (type : String)
    (hdw : 0 < image.width) (hdh : 0 < image.height)
    (hx : 0 ≤ crop.x) (hy : 0 ≤ crop.y)
    (hw : 0 < crop.width) (hh : 0 < crop.height)
    (hxw : crop.x + crop.width ≤ (image.width : ℚ))
    (hyh : crop.y + crop.height ≤ (image.height : ℚ))
    (hnw : image.naturalWidth < 2 ^ 32)
    (hnh : image.naturalHeight < 2 ^ 32)
    (henc : ∀ w h t q, (cropEnc w h t q).isSome) :
    ∃ a, getCroppedImg true cropEnc image crop type = .ok a ∧
      a.width = (⌊crop.width *
        ((image.naturalWidth : ℚ) / (image.width : ℚ))⌋).toNat ∧
      a.height = (⌊crop.height *
        ((image.naturalHeight : ℚ) / (image.height : ℚ))⌋).toNat := by
  have hsx : (0 : ℚ) ≤ (image.naturalWidth : ℚ) / (image.width : ℚ) :=
    div_nonneg (Nat.cast_nonneg _) (Nat.cast_nonneg _)
  have hsy : (0 : ℚ) ≤ (image.naturalHeight : ℚ) / (image.height : ℚ) :=
    div_nonneg (Nat.cast_nonneg _) (Nat.cast_nonneg _)
  have hqx : 0 ≤ crop.width *
      ((image.naturalWidth : ℚ) / (image.width : ℚ)) :=
    mul_nonneg hw.le hsx
  have hqy : 0 ≤ crop.height *
      ((image.naturalHeight : ℚ) / (image.height : ℚ)) :=
    mul_nonneg hh.le hsy
  have hdw0 : ((image.width : ℚ)) ≠ 0 := by
    exact_mod_cast Nat.pos_iff_ne_zero.mp hdw
  have hdh0 : ((image.height : ℚ)) ≠ 0 := by
    exact_mod_cast Nat.pos_iff_ne_zero.mp hdh
  have hbx : crop.width * ((image.naturalWidth : ℚ) / (image.width : ℚ)) <
      2 ^ 32 := by
    have hcw : crop.width ≤ (image.width : ℚ) := by linarith
    have h1 : crop.width * ((image.naturalWidth : ℚ) / (image.width : ℚ)) ≤
        (image.width : ℚ) * ((image.naturalWidth : ℚ) / (image.width : ℚ)) :=
      mul_le_mul_of_nonneg_right hcw hsx
    have h2 : (image.width : ℚ) *
        ((image.naturalWidth : ℚ) / (image.width : ℚ)) =
        (image.naturalWidth : ℚ) := mul_div_cancel₀ _ hdw0
    have h3 : ((image.naturalWidth : ℚ)) < 2 ^ 32 := by exact_mod_cast hnw
    linarith
  have hby : crop.height *
      ((image.naturalHeight : ℚ) / (image.height : ℚ)) < 2 ^ 32 := by
    have hch : crop.height ≤ (image.height : ℚ) := by linarith
    have h1 : crop.height *
        ((image.naturalHeight : ℚ) / (image.height : ℚ)) ≤
        (image.height : ℚ) *
        ((image.naturalHeight : ℚ) / (image.height : ℚ)) :=
      mul_le_mul_of_nonneg_right hch hsy
    have h2 : (image.height : ℚ) *
        ((image.naturalHeight : ℚ) / (image.height : ℚ)) =
        (image.naturalHeight : ℚ) := mul_div_cancel₀ _ hdh0
    have h3 : ((image.naturalHeight : ℚ)) < 2 ^ 32 := by exact_mod_cast hnh
    linarith
  obtain ⟨s, hs⟩ := Option.isSome_iff_exists.mp (henc
    (toUint32 (crop.width * ((image.naturalWidth : ℚ) / (image.width : ℚ))))
    (toUint32 (crop.height *
      ((image.naturalHeight : ℚ) / (image.height : ℚ))))
    type 1)
  refine ⟨⟨toUint32 (crop.width *
      ((image.naturalWidth : ℚ) / (image.width : ℚ))),
    toUint32 (crop.height *
      ((image.naturalHeight : ℚ) / (image.height : ℚ))), s⟩, ?_, ?_, ?_⟩
  · simp only [getCroppedImg]
    rw [if_pos trivial, hs]
  · exact toUint32_eq_floor _ hqx hbx
  · exact toUint32_eq_floor _ hqy hby

/-- C6 witness: a 4-by-4 image displayed at 2-by-2, cropped over its full
display extent, yields a 4-by-4 artifact (`floor(2 * 4/2) = 4`). -/
theorem c6_crop_dims_floor_witness :
    ∃ a, getCroppedImg true (fun _ _ _ _ => some 7) ⟨4, 4, 2, 2⟩
        ⟨0, 0, 2, 2⟩ "image/png" = .ok a ∧
      a.width = 4 ∧ a.height = 4 := by
  obtain ⟨a, ha, hw2, hh2⟩ := c6_crop_dims_floor (fun _ _ _ _ => some 7)
    ⟨4, 4, 2, 2⟩ ⟨0, 0, 2, 2⟩ "image/png" (by norm_num) (by norm_num)
    (by norm_num) (by norm_num) (by norm_num) (by norm_num)
    (by norm_num) (by norm_num) (by norm_num) (by norm_num)
    (fun _ _ _ _ => rfl)
  refine ⟨a, ha, ?_, ?_⟩
  · rw [hw2]
    norm_num
    rfl
  · rw [hh2]
    norm_num
    rfl

/-- C7: every phase-1 encode quality lies in `[0.01, 1.0]` (the midpoint
can never leave the interval), every phase-2 encode uses the fixed quality
`0.5` or (fallback) `0.1`, and consequently every quality the compressor
ever passes to the encoder lies in `[0.01, 1.0]`. -/
theorem c7_quality_bounds (enc : Enc) (ctx : Bool) (img : Dims) (kb : ℕ) :
    (∀ c ∈ (phase1Loop enc img.w img.h (kb * 1024)
        (1/100) 1 none 10).calls, 1/100 ≤ c.q ∧ c.q ≤ 1) ∧
    (∀ c ∈ (phase2Loop enc img.w img.h (kb * 1024) (9/10) img.w img.h
        15).calls, c.q = 1/2 ∨ c.q = 1/10) ∧
    (∀ c ∈ (compressRun enc ctx img kb).calls,
      1/100 ≤ c.q ∧ c.q ≤ 1) := by
  have h1 := phase1_calls_quality enc img.w img.h (kb * 1024) 10
    (1/100) 1 none (le_refl _) (le_refl _)
  have h2 := phase2_calls_quality enc img.w img.h (kb * 1024) 15 (9/10)
    img.w img.h
  refine ⟨h1, h2, ?_⟩
  intro c hc
  simp only [compressRun] at hc
  by_cases hctx : ctx = true
  · rw [if_pos hctx] at hc
    rcases hres : (phase1Loop enc img.w img.h (kb * 1024)
        (1/100) 1 none 10).res with e | oa
    · rw [hres] at hc
      exact h1 c hc
    · rcases oa with _ | art
      · rw [hres] at hc
        rcases List.mem_append.mp hc with hc | hc
        · exact h1 c hc
        · rcases h2 c hc with hq | hq <;> rw [hq] <;> norm_num
      · rw [hres] at hc
        exact h1 c hc
  · rw [if_neg hctx] at hc
    simp at hc

/-- C7 witness: the first (and only) encode attempt of a run whose encoder
fails immediately uses the midpoint quality `0.505`, inside `[0.01, 1]`. -/
theorem c7_quality_bounds_witness :
    1/100 ≤ ((101 : ℚ)/200) ∧ ((101 : ℚ)/200) ≤ 1 := by
  have h := (c7_quality_bounds (fun _ _ _ => none) true ⟨10, 10⟩ 1).1
    ⟨10, 10, 101/200, none, false⟩ (by
      show ⟨10, 10, 101/200, none, false⟩ ∈
        (phase1Loop (fun _ _ _ => none) 10 10 1024 (1/100) 1 none 10).calls
      rw [phase1Loop_none_eval]
      simp)
  exact h

/-- C8: phase 1 records best-so-far candidates at strictly increasing
qualities: each overwrite happens at a quality strictly above every
earlier recorded one. -/
theorem c8_recorded_increasing (enc : Enc) (ctx : Bool) (img : Dims)
    (kb : ℕ) :
    List.Pairwise (· < ·) (compressRun enc ctx img kb).recorded := by
  simp only [compressRun]
  by_cases hctx : ctx = true
  · rw [if_pos hctx]
    rcases hres : (phase1Loop enc img.w img.h (kb * 1024)
        (1/100) 1 none 10).res with e | oa
    · exact phase1_recorded_pairwise enc img.w img.h (kb * 1024) 10
        (1/100) 1 none
    · rcases oa with _ | art
      · exact phase1_recorded_pairwise enc img.w img.h (kb * 1024) 10
          (1/100) 1 none
      · exact phase1_recorded_pairwise enc img.w img.h (kb * 1024) 10
          (1/100) 1 none
  · rw [if_neg hctx]
    simp

/-- C9: under exact arithmetic the phase-2 loop performs at most 9 scaled
encode attempts, every one of them at dimensions `floor(original * j/10)`
for a scale `j/10` with `1 ≤ j ≤ 9`; the `scale < 0.1` break always fires
before the 15-iteration cap, so fuel 15 and fuel 9 give identical runs. -/
theorem c9_phase2_scales (enc : Enc) (img : Dims) (kb : ℕ) :
    phase2Loop enc img.w img.h (kb * 1024) (9/10) img.w img.h 15 =
        phase2Loop enc img.w img.h (kb * 1024) (9/10) img.w img.h 9 ∧
    ((phase2Loop enc img.w img.h (kb * 1024) (9/10) img.w img.h
        15).calls.filter (fun c => c.q == 1/2)).length ≤ 9 ∧
    ∀ c ∈ (phase2Loop enc img.w img.h (kb * 1024) (9/10) img.w img.h
        15).calls, c.q = 1/2 →
      ∃ j : ℕ, 1 ≤ j ∧ j ≤ 9 ∧
        c.w = (⌊(img.w : ℚ) * ((j : ℚ)/10)⌋).toNat ∧
        c.h = (⌊(img.h : ℚ) * ((j : ℚ)/10)⌋).toNat := by
  have hcast : (9/10 : ℚ) = ((9 : ℕ) : ℚ)/10 := by norm_num
  have hirr := phase2_fuel_irrel enc img.w img.h (kb * 1024) 9
    (by norm_num) 15 (by norm_num) img.w img.h
  rw [hcast]
  refine ⟨hirr, ?_, ?_⟩
  · rw [hirr]
    exact le_trans (phase2_filter_counts enc img.w img.h (kb * 1024) 9
      (((9 : ℕ) : ℚ)/10) img.w img.h).1 (le_refl 9)
  · intro c hc hq
    exact phase2_calls_dims enc img.w img.h (kb * 1024) 15 _ img.w img.h
      ⟨9, by norm_num, by norm_num, rfl⟩ c hc hq

/-- Concrete evaluation: the first phase-2 attempt happens at scale 0.9
(dimensions 90 by 72 for a 100-by-80 image). -/
lemma phase2Loop_none_eval :
    phase2Loop (fun _ _ _ => none) 100 80 1024 (9/10) 100 80 15 =
      ⟨.error .encodingFailed, [⟨90, 72, 1/2, none, false⟩]⟩ := by
  rw [show (15 : ℕ) = 14 + 1 from rfl, phase2Loop]
  norm_num
  constructor <;> rfl

/-- C9 witness: the 90-by-72 first scaled attempt on a 100-by-80 image is
`floor(original * 9/10)`. -/
theorem c9_phase2_scales_witness :
    ∃ j : ℕ, 1 ≤ j ∧ j ≤ 9 ∧
      (90 : ℕ) = (⌊((100 : ℕ) : ℚ) * ((j : ℚ)/10)⌋).toNat ∧
      (72 : ℕ) = (⌊((80 : ℕ) : ℚ) * ((j : ℚ)/10)⌋).toNat :=
  (c9_phase2_scales (fun _ _ _ => none) ⟨100, 80⟩ 1).2.2
    ⟨90, 72, 1/2, none, false⟩
    (by
      show ⟨90, 72, 1/2, none, false⟩ ∈
        (phase2Loop (fun _ _ _ => none) 100 80 1024 (9/10) 100 80 15).calls
      rw [phase2Loop_none_eval]
      simp)
    rfl

/-- C10: `getCroppedImg` validates nothing about the crop region: for
every region — out of bounds or with non-positive extent included — no
precondition error is raised; the only possible errors are the
no-2d-context error and the empty-encoding error, and with a context and a
producing encoder the call succeeds. -/
theorem c10_no_crop_validation (ctxOk : Bool) (cropEnc : CropEnc)
    (image : ImgEl) (crop : PixelCrop) (type : String) :
    (∀ e, getCroppedImg ctxOk cropEnc image crop type = .error e →
      e = .noContext ∨ e = .canvasEmpty) ∧
    (ctxOk = true → (∀ w h t q, (cropEnc w h t q).isSome) →
      ∃ a, getCroppedImg ctxOk cropEnc image crop type = .ok a) := by
  constructor
  · intro e _
    cases e
    · exact Or.inl rfl
    · exact Or.inr rfl
  · intro hctx henc
    obtain ⟨s, hs⟩ := Option.isSome_iff_exists.mp (henc
      (toUint32 (crop.width *
        ((image.naturalWidth : ℚ) / (image.width : ℚ))))
      (toUint32 (crop.height *
        ((image.naturalHeight : ℚ) / (image.height : ℚ))))
      type 1)
    refine ⟨⟨toUint32 (crop.width *
        ((image.naturalWidth : ℚ) / (image.width : ℚ))),
      toUint32 (crop.height *
        ((image.naturalHeight : ℚ) / (image.height : ℚ))), s⟩, ?_⟩
    simp only [getCroppedImg]
    rw [if_pos hctx, hs]

/-- C10 witness: a region with negative origin, width far beyond the
image, and negative height still crops without any validation error. -/
theorem c10_no_crop_validation_witness :
    ∃ a, getCroppedImg true (fun _ _ _ _ => some 7) ⟨4, 4, 2, 2⟩
        ⟨-5, -3, 100, -2⟩ "image/jpeg" = .ok a :=
  (c10_no_crop_validation true (fun _ _ _ _ => some 7) ⟨4, 4, 2, 2⟩
    ⟨-5, -3, 100, -2⟩ "image/jpeg").2 rfl (fun _ _ _ _ => rfl)

end PicResize
